import Mathlib

/-!
Verification of the QR rasterizer and decoder glue code of this repository
(`matrix_to_image.py`, `qr_decoder.py`).  The Python functions are embedded
shallowly: the PIL image is a pixel map with dimensions, subprocess and
filesystem effects become explicit parameters and state, and Python
exceptions become explicit outcome constructors.
-/

namespace LuaQR

/-- Pixel colors used by the rasterizer: the canvas is created `'white'`,
dark modules are filled `'black'`. -/
inductive Color where
  | white
  | black
deriving DecidableEq

/-- A PIL RGB image: its dimensions plus a total pixel map. -/
structure PILImage where
  width : Nat
  height : Nat
  pixel : Nat → Nat → Color

/-- `Image.new('RGB', (w, h), c)`: a `w×h` canvas filled with color `c`. -/
def Image.new (w h : Nat) (c : Color) : PILImage :=
  ⟨w, h, fun _ _ => c⟩

/-- `draw.rectangle([x0, y0, x1, y1], fill=c)`: fill the axis-aligned
rectangle with inclusive corners `(x0,y0)`–`(x1,y1)` with color `c`. -/
def draw_rectangle (img : PILImage) (x0 y0 x1 y1 : Nat) (c : Color) : PILImage :=
  { img with pixel := fun px py =>
      if x0 ≤ px ∧ px ≤ x1 ∧ y0 ≤ py ∧ py ≤ y1 then c else img.pixel px py }

/-- Python `matrix[y][x]`: `none` models an `IndexError` (index out of range). -/
def cellAt (m : List (List Int)) (y x : Nat) : Option Int :=
  (m.get? y).bind fun row => row.get? x

/-- The iteration order of the drawing loop in `matrix_to_image`:
`for y in range(size): for x in range(size)`, row-major. -/
def rowMajor (size : Nat) : List (Nat × Nat) :=
  (List.range size).flatMap fun y => (List.range size).map fun x => (y, x)

/-- The body of `matrix_to_image`'s nested drawing loop over the listed
cell coordinates: each cell with value `> 0` is filled as a black
`module_size × module_size` rectangle at offset
`((x+border)*module_size, (y+border)*module_size)`; an out-of-range
access raises (`Except.error`, Python `IndexError`). -/
def drawLoop (m : List (List Int)) (ms b : Nat) :
    List (Nat × Nat) → PILImage → Except Unit PILImage
  | [], img => .ok img
  | (y, x) :: rest, img =>
    match cellAt m y x with
    | none => .error ()
    | some v =>
      drawLoop m ms b rest
        (if 0 < v then
          draw_rectangle img ((x + b) * ms) ((y + b) * ms)
            ((x + b) * ms + ms - 1) ((y + b) * ms + ms - 1) Color.black
        else img)

/-- Outcome of a call to `matrix_to_image`. -/
inductive RenderResult where
  | failedEmpty
  | indexError
  | ioError
  | ok (img : PILImage)

/-- Did the call return `True` (image rendered and saved)? -/
def RenderResult.isOk : RenderResult → Bool
  | .ok _ => true
  | _ => false

/-- `matrix_to_image(matrix, filename, module_size, border)`.
`failedEmpty` is the `return False` taken when `not matrix`; `indexError`
is an uncaught `IndexError` from `matrix[y][x]`; `ioError` is an uncaught
exception raised by `img.save(filename)` (modelled by `saveOk = false`);
`ok img` is the `return True` path, with `img` the saved image. -/
def matrix_to_image (m : List (List Int)) (module_size border : Nat)
    (saveOk : Bool) : RenderResult :=
  if m.isEmpty then .failedEmpty
  else
    let size := m.length
    let total_size := size + 2 * border
    let img_size := total_size * module_size
    match drawLoop m module_size border (rowMajor size)
        (Image.new img_size img_size Color.white) with
    | .error _ => .indexError
    | .ok img => if saveOk then .ok img else .ioError

/-- Cell `p = (y, x)` of `m` holds a value `> 0` (a dark module). -/
def isDark (m : List (List Int)) (p : Nat × Nat) : Prop :=
  ∃ v, cellAt m p.1 p.2 = some v ∧ 0 < v

/-- Pixel `(px, py)` lies in the `module_size × module_size` square that
cell `p = (y, x)` is rendered to. -/
def covers (ms b : Nat) (p : Nat × Nat) (px py : Nat) : Prop :=
  (p.2 + b) * ms ≤ px ∧ px ≤ (p.2 + b) * ms + ms - 1 ∧
  (p.1 + b) * ms ≤ py ∧ py ≤ (p.1 + b) * ms + ms - 1

instance (m : List (List Int)) (p : Nat × Nat) : Decidable (isDark m p) := by
  unfold isDark
  cases cellAt m p.1 p.2 with
  | none => exact .isFalse (by simp)
  | some v => exact decidable_of_iff (0 < v) (by simp)

instance (ms b : Nat) (p : Nat × Nat) (px py : Nat) :
    Decidable (covers ms b p px py) := by
  unfold covers
  infer_instance

/-- Pixel `(px, py)` lies in the quiet zone of an `n × n` code rendered
with module size `ms` and border `b`: its module coordinates fall outside
`[b, b + n)` on at least one axis. -/
def inQuietZone (n ms b px py : Nat) : Prop :=
  px / ms < b ∨ b + n ≤ px / ms ∨ py / ms < b ∨ b + n ≤ py / ms

instance (n ms b px py : Nat) : Decidable (inQuietZone n ms b px py) := by
  unfold inQuietZone
  infer_instance

/-- Python `str.split()` with no argument: the maximal runs of
non-whitespace characters, in order.  `acc` accumulates the current run
in reverse. -/
def splitTokensAux : List Char → List Char → List String
  | [], acc => if acc.isEmpty then [] else [String.mk acc.reverse]
  | c :: cs, acc =>
    if c.isWhitespace then
      (if acc.isEmpty then [] else [String.mk acc.reverse]) ++
        splitTokensAux cs []
    else splitTokensAux cs (c :: acc)

def pySplit (s : String) : List String :=
  splitTokensAux s.data []

/-- Decimal digits to a number; `none` on a non-digit, as `int()`
raises `ValueError`. -/
def digitsToNatAux : List Char → Nat → Option Nat
  | [], acc => some acc
  | c :: cs, acc =>
    if c.isDigit then digitsToNatAux cs (acc * 10 + (c.toNat - 48))
    else none

/-- Python `int(token)` on a whitespace-free token: an optional sign
followed by at least one decimal digit; `none` models the `ValueError`
raised on anything else. -/
def pyInt? (s : String) : Option Int :=
  match s.data with
  | [] => none
  | '-' :: cs =>
    if cs.isEmpty then none
    else (digitsToNatAux cs 0).map (fun n => -(n : Int))
  | '+' :: cs =>
    if cs.isEmpty then none
    else (digitsToNatAux cs 0).map (fun n => (n : Int))
  | cs => (digitsToNatAux cs 0).map (fun n => (n : Int))

/-- Left-to-right traversal of a Python list comprehension whose body can
raise: the first failing element aborts the whole comprehension. -/
def mapOrFail {α β : Type} (f : α → Option β) : List α → Option (List β)
  | [] => some []
  | a :: l =>
    match f a with
    | none => none
    | some b => (mapOrFail f l).map (fun bs => b :: bs)

/-- `[int(x) for x in lines[i].split()]`: `none` models the `ValueError`
raised by `int()` on a token that is not parseable as an integer. -/
def parseRow (line : String) : Option (List Int) :=
  mapOrFail pyInt? (pySplit line)

/-- The sentinel scan of `lua_qr_to_matrix`: enumerate the lines; each
`MATRIX_START` line updates the start index; the first `MATRIX_END` line
records the end index and breaks. `-1` means "not found", as in the code. -/
def findSentinelsAux : List String → Int → Int × Int → Int × Int
  | [], _, acc => acc
  | line :: rest, i, (ms, me) =>
    if line = "MATRIX_START" then findSentinelsAux rest (i + 1) (i, me)
    else if line = "MATRIX_END" then (ms, i)
    else findSentinelsAux rest (i + 1) (ms, me)

def findSentinels (lines : List String) : Int × Int :=
  findSentinelsAux lines 0 (-1, -1)

/-- `lines[matrix_start + 1]`, the line holding the declared size. -/
def sizeLine? (lines : List String) : Option String :=
  lines.get? ((findSentinels lines).1.toNat + 1)

/-- `lines[matrix_start + 2 : matrix_end]`, the row lines of the matrix. -/
def rowSlice (lines : List String) : List String :=
  (lines.drop ((findSentinels lines).1.toNat + 2)).take
    ((findSentinels lines).2.toNat - ((findSentinels lines).1.toNat + 2))

/-- How the parsing section of `lua_qr_to_matrix` ends. -/
inductive ParseOutcome where
  | noSentinel                     -- explicit `return None` (missing sentinel)
  | exc                            -- exception, caught by the blanket `except`
  | ok (matrix : List (List Int))  -- matrix returned
deriving DecidableEq

/-- The parsing section of `lua_qr_to_matrix` (lines 64–90): locate the
sentinels, read the declared size with `int(...)` (its value is only
printed, never checked), then parse every line strictly between the size
line's successor and the end sentinel as a row of integers. -/
def parse_matrix_outcome (lines : List String) : ParseOutcome :=
  if (findSentinels lines).1 = -1 ∨ (findSentinels lines).2 = -1 then
    .noSentinel
  else
    match sizeLine? lines with
    | none => .exc
    | some sl =>
      match pyInt? sl with
      | none => .exc
      | some _size =>
        match mapOrFail parseRow (rowSlice lines) with
        | none => .exc
        | some matrix => .ok matrix

/-- The parsing section's value as seen by the caller: `none` models a
failed generation (both the explicit `return None` for a missing sentinel
and the exception caught by `except`), `some m` the parsed matrix. -/
def parse_matrix_output (lines : List String) : Option (List (List Int)) :=
  match parse_matrix_outcome lines with
  | .ok m => some m
  | _ => none

/-- Environment of one `lua_qr_to_matrix` call: the exit code and stdout
lines of the `lua` subprocess. -/
structure GenEnv where
  returncode : Int
  stdout_lines : List String

/-- Filesystem state tracked across a generation call: does the transient
script `temp_qr_gen.lua` exist? -/
structure FS where
  tempScriptExists : Bool
deriving DecidableEq

def writeTempScript (fs : FS) : FS := { fs with tempScriptExists := true }

def removeTempScript (fs : FS) : FS := { fs with tempScriptExists := false }

/-- `lua_qr_to_matrix`: writes the transient Lua script, runs the
subprocess, and parses its stdout inside `try/except/finally`.  Every
exit path of the `try` block — the non-zero-exit `return None`, the
missing-sentinel `return None`, the exception caught by `except`, and the
successful return — runs the `finally` clause, which removes the script.
Returns the Python return value together with the final filesystem
state. -/
def lua_qr_to_matrix (env : GenEnv) (fs0 : FS) :
    Option (List (List Int)) × FS :=
  if env.returncode ≠ 0 then
    (none, removeTempScript (writeTempScript fs0))
  else
    match parse_matrix_outcome env.stdout_lines with
    | .noSentinel => (none, removeTempScript (writeTempScript fs0))
    | .exc => (none, removeTempScript (writeTempScript fs0))
    | .ok m => (some m, removeTempScript (writeTempScript fs0))

/-- What the OpenCV boundary does for one image in `decode_qr_image`:
`cv2.imread` returns `None` (unreadable image), the processing raises an
exception, or `detectAndDecode` returns decoded text `data` (empty string
= no QR code found) with optional corner points. -/
inductive CVOutcome where
  | unreadable
  | raises
  | detected (data : String) (points : Option (List (Int × Int)))
deriving DecidableEq

/-- One decoded payload as assembled by `decode_qr_image`. -/
structure DecodeResult where
  data : String
  qrtype : String
  points : Option (List (Int × Int))
deriving DecidableEq

/-- `decode_qr_image`: returns `[]` when the image cannot be read, when
an exception is raised (swallowed by the blanket `except`), or when the
detector returns empty text; otherwise a one-element list with type
`'QRCODE'`. -/
def decode_qr_image (env : CVOutcome) : List DecodeResult :=
  match env with
  | .unreadable => []
  | .raises => []
  | .detected data pts =>
    if data = "" then [] else [⟨data, "QRCODE", pts⟩]

/-- `decode_qr_simple`: the first decoded text, or `None` when
`decode_qr_image` found nothing. -/
def decode_qr_simple (env : CVOutcome) : Option String :=
  match decode_qr_image env with
  | [] => none
  | r :: _ => some r.data

/-- One command-line image argument as the batch loop of `main` sees it:
whether `os.path.exists` holds, and what the OpenCV boundary does for
it. -/
structure BatchItem where
  fileExists : Bool
  cv : CVOutcome
deriving DecidableEq

/-- The decoding loop of `main`: skip each missing path with a
`File not found` diagnostic and continue; for each readable path append
every decoded payload to `all_decoded_text` in input order.  Returns
`all_decoded_text` and the diagnostics. -/
def batchLoop : List BatchItem → List String × List String
  | [] => ([], [])
  | item :: rest =>
    if item.fileExists then
      ((decode_qr_image item.cv).map DecodeResult.data ++ (batchLoop rest).1,
        (batchLoop rest).2)
    else
      ((batchLoop rest).1, "File not found" :: (batchLoop rest).2)

/-- `main(images, output)` of `qr_decoder.py`: empty expanded file list
returns 1 immediately; otherwise run the batch loop, write the output
file when requested (one payload per line, in order), and exit 0 exactly
when at least one payload was decoded.  Result: (exit code,
`all_decoded_text`, file-not-found diagnostics, output-file content,
`none` meaning no file was written). -/
def qr_decoder_main (items : List BatchItem) (outputRequested : Bool) :
    Nat × List String × List String × Option String :=
  if items.isEmpty then (1, [], [], none)
  else
    (if (batchLoop items).1.isEmpty then 1 else 0,
     (batchLoop items).1,
     (batchLoop items).2,
     if outputRequested then
       some (String.join ((batchLoop items).1.map (fun t => t ++ "\n")))
     else none)

/-- The decoded payloads of a batch in input order: those of each
readable image, missing paths skipped. -/
def orderedPayloads (items : List BatchItem) : List String :=
  (items.filter (fun it => it.fileExists)).flatMap
    (fun it => (decode_qr_image it.cv).map DecodeResult.data)

theorem mem_rowMajor {n : Nat} {p : Nat × Nat} :
    p ∈ rowMajor n ↔ p.1 < n ∧ p.2 < n := by
  obtain ⟨y, x⟩ := p
  simp only [rowMajor, List.mem_flatMap, List.mem_map, List.mem_range]
  constructor
  · rintro ⟨a, ha, c, hc, h⟩
    cases h
    exact ⟨ha, hc⟩
  · rintro ⟨hy, hx⟩
    exact ⟨y, hy, x, hx, rfl⟩

theorem cellAt_isSome_of_square {m : List (List Int)}
    (hsq : ∀ row ∈ m, row.length = m.length) {y x : Nat}
    (hy : y < m.length) (hx : x < m.length) : (cellAt m y x).isSome := by
  have hget : m.get? y = some (m.get ⟨y, hy⟩) := List.get?_eq_get hy
  have hmem : m.get ⟨y, hy⟩ ∈ m := List.get_mem m y hy
  have hlen : (m.get ⟨y, hy⟩).length = m.length := hsq _ hmem
  have hx2 : x < (m.get ⟨y, hy⟩).length := by rw [hlen]; exact hx
  simp only [cellAt, hget, Option.some_bind]
  rw [List.get?_eq_get hx2]
  rfl

theorem cellAt_bounds {m : List (List Int)} {y x : Nat} {v : Int}
    (h : cellAt m y x = some v) : y < m.length := by
  unfold cellAt at h
  cases hm : m.get? y with
  | none => rw [hm] at h; simp at h
  | some row =>
    by_contra hlt
    push_neg at hlt
    rw [List.get?_eq_none.mpr hlt] at hm
    exact Option.noConfusion hm

/-- Characterization of the drawing loop: when every listed cell exists,
the loop succeeds, keeps the canvas dimensions, paints exactly the pixels
covered by some listed dark cell black, and leaves every other pixel at
its prior color. -/
theorem drawLoop_spec (m : List (List Int)) (ms b : Nat)
    (coords : List (Nat × Nat)) (img : PILImage)
    (hc : ∀ p ∈ coords, (cellAt m p.1 p.2).isSome) :
    ∃ img2, drawLoop m ms b coords img = .ok img2 ∧
      img2.width = img.width ∧ img2.height = img.height ∧
      ∀ px py,
        ((∃ p ∈ coords, isDark m p ∧ covers ms b p px py) →
          img2.pixel px py = Color.black) ∧
        ((¬ ∃ p ∈ coords, isDark m p ∧ covers ms b p px py) →
          img2.pixel px py = img.pixel px py) := by
  induction coords generalizing img with
  | nil =>
    refine ⟨img, rfl, rfl, rfl, fun px py => ⟨?_, fun _ => rfl⟩⟩
    rintro ⟨p, hp, -⟩
    exact absurd hp (List.not_mem_nil p)
  | cons q rest ih =>
    obtain ⟨y, x⟩ := q
    obtain ⟨v, hv⟩ := Option.isSome_iff_exists.mp (hc (y, x) (List.mem_cons_self _ _))
    have hrest : ∀ p ∈ rest, (cellAt m p.1 p.2).isSome :=
      fun p hp => hc p (List.mem_cons_of_mem _ hp)
    set img1 : PILImage :=
      (if 0 < v then
        draw_rectangle img ((x + b) * ms) ((y + b) * ms)
          ((x + b) * ms + ms - 1) ((y + b) * ms + ms - 1) Color.black
      else img) with himg1
    obtain ⟨img2, hrun, hw, hh, hpix⟩ := ih img1 hrest
    have hw1 : img1.width = img.width := by
      rw [himg1]; split <;> rfl
    have hh1 : img1.height = img.height := by
      rw [himg1]; split <;> rfl
    refine ⟨img2, ?_, hw.trans hw1, hh.trans hh1, fun px py => ⟨?_, ?_⟩⟩
    · show drawLoop m ms b ((y, x) :: rest) img = .ok img2
      simp only [drawLoop, hv]
      exact hrun
    · rintro ⟨p, hp, hdark, hcov⟩
      rcases List.mem_cons.mp hp with h | h
      · subst h
        by_cases hr : ∃ p ∈ rest, isDark m p ∧ covers ms b p px py
        · exact (hpix px py).1 hr
        · rw [(hpix px py).2 hr]
          obtain ⟨w, hw2, hwpos⟩ := hdark
          have hvw : v = w := by
            have := hv.symm.trans hw2
            exact Option.some_injective _ this
          have hvpos : 0 < v := hvw ▸ hwpos
          rw [himg1, if_pos hvpos]
          unfold draw_rectangle
          simp only
          rw [if_pos]
          exact hcov
      · exact (hpix px py).1 ⟨p, h, hdark, hcov⟩
    · intro hno
      have hnor : ¬ ∃ p ∈ rest, isDark m p ∧ covers ms b p px py := by
        rintro ⟨p, hp, hd, hcov2⟩
        exact hno ⟨p, List.mem_cons_of_mem _ hp, hd, hcov2⟩
      rw [(hpix px py).2 hnor, himg1]
      split
      · next hvpos =>
        unfold draw_rectangle
        simp only
        rw [if_neg]
        intro hcond
        exact hno ⟨(y, x), List.mem_cons_self _ _, ⟨v, hv, hvpos⟩, hcond⟩
      · rfl

/-- Cells whose value is `≤ n` can be missing: only bound needed for the
loop to avoid an `IndexError` is that every row reaches length `n`. -/
theorem cellAt_isSome_of_le {m : List (List Int)} {n : Nat}
    (hsq : ∀ row ∈ m, n ≤ row.length) {y x : Nat}
    (hy : y < m.length) (hx : x < n) : (cellAt m y x).isSome := by
  have hget : m.get? y = some (m.get ⟨y, hy⟩) := List.get?_eq_get hy
  have hmem : m.get ⟨y, hy⟩ ∈ m := List.get_mem m y hy
  have hx2 : x < (m.get ⟨y, hy⟩).length := lt_of_lt_of_le hx (hsq _ hmem)
  simp only [cellAt, hget, Option.some_bind]
  rw [List.get?_eq_get hx2]
  rfl

/-- If every row reaches length `m.length`, the drawing loop completes
without an `IndexError`, producing the canvas with the dark rectangles. -/
theorem drawLoop_total (m : List (List Int)) (ms b : Nat)
    (hrows : ∀ row ∈ m, m.length ≤ row.length) :
    ∃ img2, drawLoop m ms b (rowMajor m.length)
      (Image.new ((m.length + 2 * b) * ms) ((m.length + 2 * b) * ms)
        Color.white) = .ok img2 ∧
      img2.width = (m.length + 2 * b) * ms ∧
      img2.height = (m.length + 2 * b) * ms ∧
      ∀ px py,
        ((∃ p ∈ rowMajor m.length, isDark m p ∧ covers ms b p px py) →
          img2.pixel px py = Color.black) ∧
        ((¬ ∃ p ∈ rowMajor m.length, isDark m p ∧ covers ms b p px py) →
          img2.pixel px py = Color.white) := by
  have hcells : ∀ p ∈ rowMajor m.length, (cellAt m p.1 p.2).isSome := by
    intro p hp
    obtain ⟨h1, h2⟩ := mem_rowMajor.mp hp
    exact cellAt_isSome_of_le hrows h1 h2
  obtain ⟨img2, hrun, hw, hh, hpix⟩ :=
    drawLoop_spec m ms b (rowMajor m.length)
      (Image.new ((m.length + 2 * b) * ms) ((m.length + 2 * b) * ms)
        Color.white) hcells
  exact ⟨img2, hrun, hw, hh, hpix⟩

/-- Unfolding `matrix_to_image` on a non-empty matrix to its drawing loop. -/
theorem matrix_to_image_eq (m : List (List Int)) (ms b : Nat) (saveOk : Bool)
    (hne : m ≠ []) :
    matrix_to_image m ms b saveOk =
      (match drawLoop m ms b (rowMajor m.length)
          (Image.new ((m.length + 2 * b) * ms) ((m.length + 2 * b) * ms)
            Color.white) with
        | .error _ => RenderResult.indexError
        | .ok img => if saveOk then RenderResult.ok img else .ioError) := by
  unfold matrix_to_image
  rw [if_neg]
  intro hcon
  exact hne (List.isEmpty_iff.mp hcon)

theorem interior_div {ms b x dx : Nat} (hms : 1 ≤ ms) (hdx : dx < ms) :
    ((x + b) * ms + dx) / ms = x + b := by
  refine Nat.div_eq_of_lt_le (Nat.le_add_right _ _) ?_
  have h : (x + b + 1) * ms = (x + b) * ms + ms := by ring
  omega

theorem covers_div {ms b : Nat} (hms : 1 ≤ ms) {p : Nat × Nat} {px py : Nat}
    (h : covers ms b p px py) : px / ms = p.2 + b ∧ py / ms = p.1 + b := by
  obtain ⟨h1, h2, h3, h4⟩ := h
  have e1 : (p.2 + b + 1) * ms = (p.2 + b) * ms + ms := by ring
  have e2 : (p.1 + b + 1) * ms = (p.1 + b) * ms + ms := by ring
  exact ⟨Nat.div_eq_of_lt_le h1 (by omega), Nat.div_eq_of_lt_le h3 (by omega)⟩

theorem covers_interior {ms b : Nat} (hms : 1 ≤ ms) {y x dx dy : Nat}
    (hdx : dx < ms) (hdy : dy < ms) :
    covers ms b (y, x) ((x + b) * ms + dx) ((y + b) * ms + dy) := by
  unfold covers
  dsimp only
  refine ⟨Nat.le_add_right _ _, by omega, Nat.le_add_right _ _, by omega⟩

theorem cellAt_eq_some {m : List (List Int)} {y x : Nat} {v : Int}
    (h : cellAt m y x = some v) :
    ∃ row, m.get? y = some row ∧ row.get? x = some v := by
  unfold cellAt at h
  cases hm : m.get? y with
  | none => rw [hm] at h; simp at h
  | some row =>
    rw [hm] at h
    exact ⟨row, rfl, h⟩

theorem cellAt_col_lt {m : List (List Int)} {y x : Nat} {v : Int}
    (hsq : ∀ row ∈ m, row.length = m.length)
    (h : cellAt m y x = some v) : x < m.length := by
  obtain ⟨row, hrow, hcol⟩ := cellAt_eq_some h
  have hmem : row ∈ m := List.get?_mem hrow
  have hx : x < row.length := by
    by_contra hge
    push_neg at hge
    rw [List.get?_eq_none.mpr hge] at hcol
    exact Option.noConfusion hcol
  rw [hsq row hmem] at hx
  exact hx

/-- C1: for a non-empty square matrix and a valid configuration
(`module_size ≥ 1`, any `border`), each cell with value `> 0` is rendered
as a filled black `module_size × module_size` square whose top-left pixel
is `((x+border)·module_size, (y+border)·module_size)`, and every pixel of
the quiet zone, and every pixel lying in a cell whose value is `≤ 0`, is
white. -/
theorem C1_module_alignment (m : List (List Int)) (ms b : Nat)
    (hne : m ≠ []) (hsq : ∀ row ∈ m, row.length = m.length) (hms : 1 ≤ ms) :
    ∃ img, matrix_to_image m ms b true = .ok img ∧
      (∀ y x v, cellAt m y x = some v → 0 < v →
        ∀ dx dy, dx < ms → dy < ms →
          img.pixel ((x + b) * ms + dx) ((y + b) * ms + dy) = Color.black) ∧
      (∀ px py, px < (m.length + 2 * b) * ms → py < (m.length + 2 * b) * ms →
        (inQuietZone m.length ms b px py ∨
          (∀ v, cellAt m (py / ms - b) (px / ms - b) = some v → v ≤ 0)) →
        img.pixel px py = Color.white) := by
  have hrows : ∀ row ∈ m, m.length ≤ row.length :=
    fun row hr => le_of_eq (hsq row hr).symm
  obtain ⟨img, hrun, hw, hh, hpix⟩ := drawLoop_total m ms b hrows
  refine ⟨img, ?_, ?_, ?_⟩
  · rw [matrix_to_image_eq m ms b true hne, hrun]
    rfl
  · intro y x v hv hvpos dx dy hdx hdy
    refine (hpix _ _).1 ⟨(y, x), ?_, ⟨v, hv, hvpos⟩, covers_interior hms hdx hdy⟩
    exact mem_rowMajor.mpr ⟨cellAt_bounds hv, cellAt_col_lt hsq hv⟩
  · intro px py hpx hpy hcase
    refine (hpix px py).2 ?_
    rintro ⟨p, hp, ⟨v, hv, hvpos⟩, hcov⟩
    obtain ⟨hy, hx⟩ := mem_rowMajor.mp hp
    obtain ⟨hdx, hdy⟩ := covers_div hms hcov
    rcases hcase with hq | hlight
    · rcases hq with h | h | h | h <;> omega
    · have e1 : py / ms - b = p.1 := by omega
      have e2 : px / ms - b = p.2 := by omega
      have := hlight v (by rw [e1, e2]; exact hv)
      omega

/-- C1 witness: matrix `[[1, -1], [0, 2]]`, module size 2, border 1.
Cell (0,0) is dark, so pixel (2,2) is black; cell (1,1) is dark, so pixel
(5,5) is black; pixel (0,0) is in the quiet zone, so white; pixel (5,2)
lies in the light cell (0,1) (value -1), so white. -/
theorem C1_witness :
    ∃ img, matrix_to_image [[1, -1], [0, 2]] 2 1 true = .ok img ∧
      img.pixel 2 2 = Color.black ∧ img.pixel 5 5 = Color.black ∧
      img.pixel 0 0 = Color.white ∧ img.pixel 5 2 = Color.white := by
  obtain ⟨img, hok, hdark, hlight⟩ :=
    C1_module_alignment [[1, -1], [0, 2]] 2 1 (by decide) (by decide) (by decide)
  refine ⟨img, hok, ?_, ?_, ?_, ?_⟩
  · exact hdark 0 0 1 (by decide) (by decide) 0 0 (by decide) (by decide)
  · exact hdark 1 1 2 (by decide) (by decide) 1 1 (by decide) (by decide)
  · exact hlight 0 0 (by decide) (by decide) (Or.inl (by decide))
  · refine hlight 5 2 (by decide) (by decide) (Or.inr fun v hv => ?_)
    have h2 : cellAt [[1, -1], [0, 2]] (2 / 2 - 1) (5 / 2 - 1) = some (-1) := by
      decide
    rw [h2] at hv
    have : v = -1 := (Option.some.inj hv).symm
    omega

/-- C2: for every non-empty square matrix and valid configuration, the
rendered image is square with both dimensions equal to
`(N + 2·border) · module_size`. -/
theorem C2_image_dimensions (m : List (List Int)) (ms b : Nat)
    (hne : m ≠ []) (hsq : ∀ row ∈ m, row.length = m.length) (hms : 1 ≤ ms) :
    ∃ img, matrix_to_image m ms b true = .ok img ∧
      img.width = (m.length + 2 * b) * ms ∧
      img.height = (m.length + 2 * b) * ms := by
  have hrows : ∀ row ∈ m, m.length ≤ row.length :=
    fun row hr => le_of_eq (hsq row hr).symm
  obtain ⟨img, hrun, hw, hh, -⟩ := drawLoop_total m ms b hrows
  refine ⟨img, ?_, hw, hh⟩
  rw [matrix_to_image_eq m ms b true hne, hrun]
  rfl

/-- C2 witness: a 1×1 matrix with module size 2 and border 1 yields a
6×6 image. -/
theorem C2_witness :
    ∃ img, matrix_to_image [[1]] 2 1 true = .ok img ∧
      img.width = 6 ∧ img.height = 6 := by
  obtain ⟨img, hok, hw, hh⟩ :=
    C2_image_dimensions [[1]] 2 1 (by decide) (by decide) (by decide)
  exact ⟨img, hok, hw, hh⟩

/-- C3 counterexample: the non-square matrix `[[1, 1, 1]]` (one row of
three entries, declared size N = 1) is not rejected: `matrix_to_image`
renders it successfully and returns `True`. -/
theorem C3_counterexample :
    (matrix_to_image [[1, 1, 1]] 1 0 true).isOk = true := by decide

theorem get?_isSome_iff {α : Type} {l : List α} {n : Nat} :
    (l.get? n).isSome ↔ n < l.length := by
  constructor
  · intro h
    by_contra hge
    push_neg at hge
    rw [List.get?_eq_none.mpr hge] at h
    simp at h
  · intro h
    rw [List.get?_eq_get h]
    rfl

/-- If any listed cell is missing, the drawing loop raises the
`IndexError` of `matrix[y][x]`. -/
theorem drawLoop_error (m : List (List Int)) (ms b : Nat) :
    ∀ coords img, (∃ p ∈ coords, cellAt m p.1 p.2 = none) →
      drawLoop m ms b coords img = .error () := by
  intro coords
  induction coords with
  | nil =>
    rintro img ⟨p, hp, -⟩
    exact absurd hp (List.not_mem_nil p)
  | cons q rest ih =>
    rintro img ⟨p, hp, hnone⟩
    obtain ⟨y, x⟩ := q
    show drawLoop m ms b ((y, x) :: rest) img = .error ()
    simp only [drawLoop]
    cases hc : cellAt m y x with
    | none => rfl
    | some v =>
      rcases List.mem_cons.mp hp with he | he
      · subst he
        dsimp only at hnone
        rw [hc] at hnone
        exact Option.noConfusion hnone
      · dsimp only
        exact ih _ ⟨p, he, hnone⟩

/-- The drawing loop only reads the cells it visits: matrices agreeing on
the listed cells draw identically. -/
theorem drawLoop_congr_on (m1 m2 : List (List Int)) (ms b : Nat) :
    ∀ coords img, (∀ p ∈ coords, cellAt m1 p.1 p.2 = cellAt m2 p.1 p.2) →
      drawLoop m1 ms b coords img = drawLoop m2 ms b coords img := by
  intro coords
  induction coords with
  | nil =>
    intro img _
    rfl
  | cons q rest ih =>
    intro img hagree
    obtain ⟨y, x⟩ := q
    have hq : cellAt m1 y x = cellAt m2 y x :=
      hagree (y, x) (List.mem_cons_self _ _)
    have hrest : ∀ p ∈ rest, cellAt m1 p.1 p.2 = cellAt m2 p.1 p.2 :=
      fun p hp => hagree p (List.mem_cons_of_mem _ hp)
    show drawLoop m1 ms b ((y, x) :: rest) img =
      drawLoop m2 ms b ((y, x) :: rest) img
    simp only [drawLoop]
    rw [← hq]
    cases hc : cellAt m1 y x with
    | none => rfl
    | some v => exact ih _ hrest

/-- C3 amended: `matrix_to_image` fails with its failure return value
only for the empty matrix; it performs no squareness or row-length
validation — any non-empty matrix whose rows all reach length `N` renders
successfully, a matrix with a row shorter than `N` raises an uncaught
`IndexError` (not a `ValidationError`), and entries beyond column `N` are
silently ignored: the rendering equals that of the matrix with every row
truncated to its first `N` entries. -/
theorem C3_amended (m : List (List Int)) (ms b : Nat) (saveOk : Bool) :
    (matrix_to_image m ms b saveOk = .failedEmpty ↔ m = []) ∧
    (m ≠ [] → (∀ row ∈ m, m.length ≤ row.length) →
      (matrix_to_image m ms b true).isOk = true) ∧
    (m ≠ [] → (∃ row ∈ m, row.length < m.length) →
      matrix_to_image m ms b saveOk = .indexError) ∧
    matrix_to_image m ms b saveOk =
      matrix_to_image (m.map (fun row => row.take m.length)) ms b saveOk := by
  refine ⟨⟨?_, ?_⟩, ?_, ?_, ?_⟩
  · intro h
    by_contra hne
    rw [matrix_to_image_eq m ms b saveOk hne] at h
    rcases hrun : drawLoop m ms b (rowMajor m.length)
        (Image.new ((m.length + 2 * b) * ms) ((m.length + 2 * b) * ms)
          Color.white) with e | img
    · rw [hrun] at h
      exact RenderResult.noConfusion h
    · rw [hrun] at h
      cases saveOk <;> simp at h
  · intro h
    subst h
    rfl
  · intro hne hrows
    obtain ⟨img, hrun, -, -, -⟩ := drawLoop_total m ms b hrows
    rw [matrix_to_image_eq m ms b true hne, hrun]
    rfl
  · intro hne hshort
    obtain ⟨row, hrow, hlt⟩ := hshort
    obtain ⟨y, hy⟩ := List.mem_iff_get?.mp hrow
    have hylt : y < m.length := get?_isSome_iff.mp (by rw [hy]; rfl)
    have hnone : cellAt m y row.length = none := by
      unfold cellAt
      rw [hy]
      simp only [Option.some_bind]
      exact List.get?_eq_none.mpr (le_refl _)
    rw [matrix_to_image_eq m ms b saveOk hne,
        drawLoop_error m ms b (rowMajor m.length) _
          ⟨(y, row.length), mem_rowMajor.mpr ⟨hylt, hlt⟩, hnone⟩]
  · rcases hm : m with _ | ⟨r, t⟩
    · rfl
    · rw [← hm]
      have hne : m ≠ [] := by
        rw [hm]
        exact List.cons_ne_nil r t
      have hlen2 : (m.map (fun row => row.take m.length)).length = m.length :=
        List.length_map _ _
      have hne2 : m.map (fun row => row.take m.length) ≠ [] := by
        intro hcon
        rw [hcon] at hlen2
        exact hne (List.length_eq_zero.mp hlen2.symm)
      have hagree : ∀ p ∈ rowMajor m.length,
          cellAt m p.1 p.2 =
            cellAt (m.map (fun row => row.take m.length)) p.1 p.2 := by
        intro p hp
        obtain ⟨hy, hx⟩ := mem_rowMajor.mp hp
        unfold cellAt
        rw [List.get?_map]
        cases hr : m.get? p.1 with
        | none => rfl
        | some rw2 =>
          simp only [Option.map_some', Option.some_bind]
          exact (List.get?_take hx).symm
      rw [matrix_to_image_eq m ms b saveOk hne,
          matrix_to_image_eq _ ms b saveOk hne2, hlen2,
          drawLoop_congr_on m (m.map (fun row => row.take m.length)) ms b
            (rowMajor m.length) _ hagree]

/-- C3 amended witness: `[[1, 1, 1]]` is non-empty with rows of length
`≥ 1`, so it renders successfully and is not reported as empty; and
`[[1, 1], [1]]` (declared size 2, second row of length 1) hits an
uncaught `IndexError`. -/
theorem C3_amended_witness :
    ¬ (matrix_to_image [[1, 1, 1]] 1 0 true = .failedEmpty) ∧
    (matrix_to_image [[1, 1, 1]] 1 0 true).isOk = true ∧
    matrix_to_image [[1, 1], [1]] 1 0 true = .indexError := by
  have h := C3_amended [[1, 1, 1]] 1 0 true
  have h2 := C3_amended [[1, 1], [1]] 1 0 true
  refine ⟨fun hcon => absurd (h.1.mp hcon) (by decide),
    h.2.1 (by decide) (by decide), ?_⟩
  exact h2.2.2.1 (by decide) ⟨[1], by decide, by decide⟩

/-- C7 counterexample: on the valid matrix `[[1]]`, when saving the image
raises an I/O error, `matrix_to_image` does not return `False` — the
exception propagates to the caller. -/
theorem C7_counterexample :
    matrix_to_image [[1]] 1 0 false = RenderResult.ioError := rfl

/-- C7 amended: `matrix_to_image` signals failure through its boolean
return value only for the empty-matrix check; when writing the output
image fails with an I/O error, the exception propagates to the caller
instead of being converted into a `False` return. -/
theorem C7_amended (m : List (List Int)) (ms b : Nat) (saveOk : Bool)
    (hne : m ≠ []) (hrows : ∀ row ∈ m, m.length ≤ row.length) :
    matrix_to_image m ms b false = .ioError ∧
    (matrix_to_image m ms b true).isOk = true ∧
    matrix_to_image [] ms b saveOk = .failedEmpty := by
  obtain ⟨img, hrun, -, -, -⟩ := drawLoop_total m ms b hrows
  refine ⟨?_, ?_, rfl⟩
  · rw [matrix_to_image_eq m ms b false hne, hrun]
    rfl
  · rw [matrix_to_image_eq m ms b true hne, hrun]
    rfl

/-- C7 amended witness at the concrete matrix `[[1]]`. -/
theorem C7_amended_witness :
    matrix_to_image [[1]] 1 0 false = .ioError ∧
    (matrix_to_image [[1]] 1 0 true).isOk = true ∧
    matrix_to_image [] 1 0 true = .failedEmpty := by
  have h := C7_amended [[1]] 1 0 true (by decide) (by decide)
  exact h

/-- Matrices of the same shape have cells at exactly the same positions. -/
theorem cellAt_isSome_congr {m1 m2 : List (List Int)}
    (hshape : ∀ y, (m1.get? y).map List.length = (m2.get? y).map List.length)
    (y x : Nat) : (cellAt m1 y x).isSome ↔ (cellAt m2 y x).isSome := by
  have hy := hshape y
  unfold cellAt
  cases h1 : m1.get? y with
  | none =>
    rw [h1] at hy
    cases h2 : m2.get? y with
    | none => simp
    | some r2 => rw [h2] at hy; exact absurd hy (by simp)
  | some r1 =>
    rw [h1] at hy
    cases h2 : m2.get? y with
    | none => rw [h2] at hy; exact absurd hy (by simp)
    | some r2 =>
      rw [h2] at hy
      have hlen : r1.length = r2.length := by simpa using hy
      simp only [Option.some_bind]
      rw [get?_isSome_iff, get?_isSome_iff, hlen]

/-- The drawing loop visits the same cells and makes the same drawing
decisions on two matrices that agree cellwise on the sign test `> 0`. -/
theorem drawLoop_congr (m1 m2 : List (List Int)) (ms b : Nat)
    (hshape : ∀ y, (m1.get? y).map List.length = (m2.get? y).map List.length)
    (hsign : ∀ y x v1 v2, cellAt m1 y x = some v1 → cellAt m2 y x = some v2 →
      (0 < v1 ↔ 0 < v2)) :
    ∀ coords img, drawLoop m1 ms b coords img = drawLoop m2 ms b coords img := by
  intro coords
  induction coords with
  | nil => intro img; rfl
  | cons q rest ih =>
    intro img
    obtain ⟨y, x⟩ := q
    show drawLoop m1 ms b ((y, x) :: rest) img = drawLoop m2 ms b ((y, x) :: rest) img
    simp only [drawLoop]
    cases h1 : cellAt m1 y x with
    | none =>
      have h2 : cellAt m2 y x = none := by
        cases h2 : cellAt m2 y x with
        | none => rfl
        | some v =>
          have := (cellAt_isSome_congr hshape y x).mpr (by rw [h2]; rfl)
          rw [h1] at this
          exact absurd this (by simp)
      rw [h2]
    | some v1 =>
      cases h2 : cellAt m2 y x with
      | none =>
        have := (cellAt_isSome_congr hshape y x).mp (by rw [h1]; rfl)
        rw [h2] at this
        exact absurd this (by simp)
      | some v2 =>
        have hiff : 0 < v1 ↔ 0 < v2 := hsign y x v1 v2 h1 h2
        dsimp only
        by_cases hv : 0 < v1
        · rw [if_pos hv, if_pos (hiff.mp hv)]
          exact ih _
        · rw [if_neg hv, if_neg (fun hc => hv (hiff.mpr hc))]
          exact ih _

/-- C8: rendering depends only on the sign pattern of the matrix: two
matrices of the same shape whose corresponding cells agree on the test
`value > 0` render to exactly the same result (pixel-identical images)
under the same configuration. -/
theorem C8_sign_pattern (m1 m2 : List (List Int)) (ms b : Nat) (saveOk : Bool)
    (hlen : m1.length = m2.length)
    (hshape : ∀ y, (m1.get? y).map List.length = (m2.get? y).map List.length)
    (hsign : ∀ y x v1 v2, cellAt m1 y x = some v1 → cellAt m2 y x = some v2 →
      (0 < v1 ↔ 0 < v2)) :
    matrix_to_image m1 ms b saveOk = matrix_to_image m2 ms b saveOk := by
  rcases hm1 : m1 with _ | ⟨r1, t1⟩
  · have hm2 : m2 = [] := by
      rw [hm1] at hlen
      exact (List.length_eq_zero.mp hlen.symm)
    rw [hm2]
  · have hne1 : m1 ≠ [] := by rw [hm1]; exact List.cons_ne_nil r1 t1
    have hne2 : m2 ≠ [] := by
      intro hcon
      rw [hcon] at hlen
      rw [hm1] at hlen
      simp at hlen
    rw [← hm1]
    rw [matrix_to_image_eq m1 ms b saveOk hne1,
        matrix_to_image_eq m2 ms b saveOk hne2, hlen,
        drawLoop_congr m1 m2 ms b hshape hsign]

/-- C8 witness: `[[3, -7], [0, 1]]` and `[[1, 0], [-2, 5]]` have the same
sign pattern, so they render identically. -/
theorem C8_witness :
    matrix_to_image [[3, -7], [0, 1]] 2 1 true =
      matrix_to_image [[1, 0], [-2, 5]] 2 1 true := by
  refine C8_sign_pattern [[3, -7], [0, 1]] [[1, 0], [-2, 5]] 2 1 true rfl ?_ ?_
  · intro y
    match y with
    | 0 => rfl
    | 1 => rfl
    | Nat.succ (Nat.succ n) => rfl
  · intro y x v1 v2 h1 h2
    have hy : y < 2 := cellAt_bounds h1
    have hx : x < 2 := cellAt_col_lt (by decide) h1
    interval_cases y <;> interval_cases x <;>
      simp only [cellAt, List.get?, Option.some_bind, Option.some.injEq]
        at h1 h2 <;> omega

theorem mapOrFail_none_of_mem {α β : Type} {f : α → Option β} {l : List α}
    {a : α} (ha : a ∈ l) (hf : f a = none) : mapOrFail f l = none := by
  induction l with
  | nil => exact absurd ha (List.not_mem_nil a)
  | cons x rest ih =>
    rcases List.mem_cons.mp ha with h | h
    · subst h
      simp only [mapOrFail, hf]
    · simp only [mapOrFail]
      cases hx : f x with
      | none => rfl
      | some b => rw [ih h]; rfl


/-- C4 counterexample: generator stdout declaring size 5 but delivering a
single row of two tokens parses successfully to `[[1, 2]]` — neither the
declared-size/row-count disagreement nor the row token count makes the
parse fail, contrary to the claim. -/
theorem C4_counterexample :
    parse_matrix_output ["MATRIX_START", "5", "1 2", "MATRIX_END"] =
      some [[1, 2]] := by decide

/-- C4 amended: parsing fails when either sentinel is absent, when the
declared-size line is not parseable as an integer, or when any token of
any row line is not parseable as an integer; but the declared size is
never compared with the number of rows or with any row's token count —
whenever the sentinels are present and every token parses, the rows
between the sentinels are returned as the matrix regardless of the
declared size.  The last conjunct ties the parser to the value
`lua_qr_to_matrix` returns when the subprocess exits 0. -/
theorem C4_amended (lines : List String) :
    (((findSentinels lines).1 = -1 ∨ (findSentinels lines).2 = -1) →
      parse_matrix_output lines = none) ∧
    (∀ sl, sizeLine? lines = some sl → pyInt? sl = none →
      parse_matrix_output lines = none) ∧
    (∀ row, row ∈ rowSlice lines → parseRow row = none →
      parse_matrix_output lines = none) ∧
    (∀ row tok, tok ∈ pySplit row → pyInt? tok = none →
      parseRow row = none) ∧
    (¬((findSentinels lines).1 = -1 ∨ (findSentinels lines).2 = -1) →
      ∀ sl z, sizeLine? lines = some sl → pyInt? sl = some z →
        ∀ rows, mapOrFail parseRow (rowSlice lines) = some rows →
          parse_matrix_output lines = some rows) ∧
    (∀ env fs0, GenEnv.stdout_lines env = lines → GenEnv.returncode env = 0 →
      (lua_qr_to_matrix env fs0).1 = parse_matrix_output lines) := by
  refine ⟨?_, ?_, ?_, ?_, ?_, ?_⟩
  · intro h
    simp only [parse_matrix_output, parse_matrix_outcome, if_pos h]
  · intro sl hsl hint
    by_cases h : (findSentinels lines).1 = -1 ∨ (findSentinels lines).2 = -1
    · simp only [parse_matrix_output, parse_matrix_outcome, if_pos h]
    · simp only [parse_matrix_output, parse_matrix_outcome, if_neg h, hsl,
        hint]
  · intro row hrow hparse
    by_cases h : (findSentinels lines).1 = -1 ∨ (findSentinels lines).2 = -1
    · simp only [parse_matrix_output, parse_matrix_outcome, if_pos h]
    · cases hsl : sizeLine? lines with
      | none =>
        simp only [parse_matrix_output, parse_matrix_outcome, if_neg h, hsl]
      | some sl =>
        cases hint : pyInt? sl with
        | none =>
          simp only [parse_matrix_output, parse_matrix_outcome, if_neg h,
            hsl, hint]
        | some z =>
          simp only [parse_matrix_output, parse_matrix_outcome, if_neg h,
            hsl, hint, mapOrFail_none_of_mem hrow hparse]
  · intro row tok htok hint
    unfold parseRow
    exact mapOrFail_none_of_mem htok hint
  · intro h sl z hsl hint rows hrows
    simp only [parse_matrix_output, parse_matrix_outcome, if_neg h, hsl,
      hint, hrows]
  · intro env fs0 hlines hrc
    unfold lua_qr_to_matrix parse_matrix_output
    rw [hrc, hlines, if_neg (fun hcon : ¬((0 : Int) = 0) => hcon rfl)]
    cases hp : parse_matrix_outcome lines <;> rfl

/-- C4 amended witness: stdout with no sentinels fails; a row containing
the unparseable token `x` fails; and when the subprocess exits 0 the
generation call returns exactly the parser's value. -/
theorem C4_amended_witness :
    parse_matrix_output ["no", "sentinels", "here"] = none ∧
    parse_matrix_output ["MATRIX_START", "2", "1 x", "MATRIX_END"] = none ∧
    (lua_qr_to_matrix ⟨0, ["MATRIX_START", "5", "1 2", "MATRIX_END"]⟩
      ⟨false⟩).1 =
      parse_matrix_output ["MATRIX_START", "5", "1 2", "MATRIX_END"] := by
  refine ⟨?_, ?_, ?_⟩
  · exact (C4_amended ["no", "sentinels", "here"]).1 (by decide)
  · exact (C4_amended ["MATRIX_START", "2", "1 x", "MATRIX_END"]).2.2.1
      "1 x" (by decide) (by decide)
  · exact (C4_amended ["MATRIX_START", "5", "1 2", "MATRIX_END"]).2.2.2.2.2
      ⟨0, ["MATRIX_START", "5", "1 2", "MATRIX_END"]⟩ ⟨false⟩ rfl rfl

/-- C6: the transient Lua script is gone at the end of every
`lua_qr_to_matrix` call — the `finally` clause removes it on the
subprocess-failure path, on both parse-failure paths, and on success. -/
theorem C6_temp_file_cleanup (env : GenEnv) (fs0 : FS) :
    ((lua_qr_to_matrix env fs0).2).tempScriptExists = false := by
  unfold lua_qr_to_matrix
  by_cases h : env.returncode ≠ 0
  · rw [if_pos h]
    rfl
  · rw [if_neg h]
    cases parse_matrix_outcome env.stdout_lines <;> rfl

/-- The two components computed by the decoding loop of `main`:
`all_decoded_text` is the in-order concatenation of the payloads of the
readable images, and there is one diagnostic per missing path. -/
theorem batchLoop_spec (items : List BatchItem) :
    (batchLoop items).1 = orderedPayloads items ∧
    (batchLoop items).2.length =
      (items.filter (fun it => !it.fileExists)).length := by
  induction items with
  | nil => exact ⟨rfl, rfl⟩
  | cons item rest ih =>
    obtain ⟨fe, cv⟩ := item
    cases fe with
    | true =>
      constructor
      · show (decode_qr_image cv).map DecodeResult.data ++ (batchLoop rest).1 =
          orderedPayloads (⟨true, cv⟩ :: rest)
        rw [ih.1]
        rfl
      · show (batchLoop rest).2.length = _
        rw [ih.2]
        rfl
    | false =>
      constructor
      · show (batchLoop rest).1 = orderedPayloads (⟨false, cv⟩ :: rest)
        rw [ih.1]
        rfl
      · show (batchLoop rest).2.length + 1 = _
        rw [ih.2]
        rfl

/-- C5: the batch decoder skips each missing path (one diagnostic per
missing path, decoded payloads unaffected, with processing continuing
over the remaining paths in order) and its exit status is 0 exactly when
at least one QR payload was decoded across the whole batch, 1 otherwise. -/
theorem C5_batch_exit_status (items : List BatchItem)
    (outputRequested : Bool) :
    ((qr_decoder_main items outputRequested).1 = 0 ↔
      ∃ it ∈ items, it.fileExists ∧ decode_qr_image it.cv ≠ []) ∧
    ((qr_decoder_main items outputRequested).1 = 0 ∨
      (qr_decoder_main items outputRequested).1 = 1) ∧
    (qr_decoder_main items outputRequested).2.1 = orderedPayloads items ∧
    (qr_decoder_main items outputRequested).2.2.1.length =
      (items.filter (fun it => !it.fileExists)).length := by
  have hb := batchLoop_spec items
  have hiff : orderedPayloads items = [] ↔
      ¬ ∃ it ∈ items, it.fileExists ∧ decode_qr_image it.cv ≠ [] := by
    unfold orderedPayloads
    rw [List.flatMap_eq_nil_iff]
    constructor
    · rintro h ⟨it, hmem, hex, hne⟩
      have := h it (List.mem_filter.mpr ⟨hmem, hex⟩)
      rw [List.map_eq_nil_iff] at this
      exact hne this
    · intro h it hmem
      obtain ⟨hmem2, hex⟩ := List.mem_filter.mp hmem
      rw [List.map_eq_nil_iff]
      by_contra hne
      exact h ⟨it, hmem2, hex, hne⟩
  rcases hitems : items with _ | ⟨it0, rest⟩
  · refine ⟨?_, ?_, ?_, ?_⟩ <;> simp [qr_decoder_main, orderedPayloads]
  · rw [← hitems]
    have hnil : ¬(items.isEmpty = true) := by
      rw [hitems]
      exact fun hcon => Bool.noConfusion hcon
    unfold qr_decoder_main
    rw [if_neg hnil]
    refine ⟨?_, ?_, hb.1, hb.2⟩
    · show (if (batchLoop items).1.isEmpty then 1 else 0) = 0 ↔ _
      rw [hb.1]
      by_cases hp : orderedPayloads items = []
      · rw [if_pos (List.isEmpty_iff.mpr hp)]
        constructor
        · intro hcon
          exact absurd hcon one_ne_zero
        · intro hex
          exact absurd hex (hiff.mp hp)
      · rw [if_neg (fun hcon => hp (List.isEmpty_iff.mp hcon))]
        constructor
        · intro _
          by_contra hno
          exact hp (hiff.mpr hno)
        · intro _
          rfl
    · show ((if (batchLoop items).1.isEmpty then 1 else 0) = 0 ∨
        (if (batchLoop items).1.isEmpty then 1 else 0) = 1)
      by_cases hp : (batchLoop items).1.isEmpty = true
      · rw [if_pos hp]
        exact Or.inr rfl
      · rw [if_neg hp]
        exact Or.inl rfl

/-- C5 witness: a batch of a missing file and a readable image decoding
to `OK` exits 0; a batch of a single unreadable image exits 1; in the
first batch there is exactly one diagnostic and one payload. -/
theorem C5_witness :
    (qr_decoder_main [⟨false, CVOutcome.detected "X" none⟩,
      ⟨true, CVOutcome.detected "OK" none⟩] false).1 = 0 ∧
    (qr_decoder_main [⟨true, CVOutcome.unreadable⟩] false).1 = 1 ∧
    (qr_decoder_main [⟨false, CVOutcome.detected "X" none⟩,
      ⟨true, CVOutcome.detected "OK" none⟩] false).2.1 = ["OK"] ∧
    (qr_decoder_main [⟨false, CVOutcome.detected "X" none⟩,
      ⟨true, CVOutcome.detected "OK" none⟩] false).2.2.1.length = 1 := by
  have h1 := C5_batch_exit_status [⟨false, CVOutcome.detected "X" none⟩,
    ⟨true, CVOutcome.detected "OK" none⟩] false
  have h2 := C5_batch_exit_status [⟨true, CVOutcome.unreadable⟩] false
  refine ⟨?_, ?_, ?_, ?_⟩
  · refine h1.1.mpr ⟨⟨true, CVOutcome.detected "OK" none⟩, ?_, rfl, ?_⟩
    · exact List.mem_cons_of_mem _ (List.mem_cons_self _ _)
    · exact fun hcon => List.noConfusion hcon
  · rcases h2.2.1 with h | h
    · exfalso
      obtain ⟨it, hmem, -, hne⟩ := h2.1.mp h
      rcases List.mem_cons.mp hmem with he | he
      · subst he
        exact hne rfl
      · exact absurd he (List.not_mem_nil _)
    · exact h
  · rw [h1.2.2.1]
    rfl
  · rw [h1.2.2.2]
    rfl

/-- C9: when an output file is requested (and the expanded image list is
non-empty), the batch decoder writes exactly the decoded payloads, one
per line, in input-image order, and nothing else. -/
theorem C9_output_file (items : List BatchItem) (hne : items ≠ []) :
    (qr_decoder_main items true).2.2.2 =
      some (String.join
        ((orderedPayloads items).map (fun t => t ++ "\n"))) := by
  unfold qr_decoder_main
  rw [if_neg (fun hcon => hne (List.isEmpty_iff.mp hcon))]
  show (if true then
      some (String.join ((batchLoop items).1.map (fun t => t ++ "\n")))
    else none) = _
  rw [if_pos rfl, (batchLoop_spec items).1]

/-- C9 witness: a missing path followed by an image decoding to `HI`
produces the output file `HI\n` — one payload, one line, nothing else. -/
theorem C9_witness :
    (qr_decoder_main
      [⟨false, CVOutcome.detected "X" none⟩,
       ⟨true, CVOutcome.detected "HI" none⟩] true).2.2.2 =
      some "HI\n" := by
  rw [C9_output_file
    [⟨false, CVOutcome.detected "X" none⟩,
     ⟨true, CVOutcome.detected "HI" none⟩]
    (List.cons_ne_nil _ _)]
  rfl

/-- C10: `decode_qr_image` totally returns at most one result and never
raises; it returns `[]` for an unreadable image, for an internal
exception, and when the detector finds no text — so at the return-value
level a load failure is indistinguishable from "no code found" — and
`decode_qr_simple` accordingly returns `none` in exactly those cases. -/
theorem C10_decode_total (env : CVOutcome)
    (pts : Option (List (Int × Int))) :
    (decode_qr_image env).length ≤ 1 ∧
    decode_qr_image CVOutcome.unreadable = [] ∧
    decode_qr_image CVOutcome.raises = [] ∧
    decode_qr_image (CVOutcome.detected "" pts) = [] ∧
    decode_qr_image CVOutcome.unreadable =
      decode_qr_image (CVOutcome.detected "" pts) ∧
    decode_qr_simple CVOutcome.unreadable = none ∧
    decode_qr_simple (CVOutcome.detected "" pts) = none ∧
    (decode_qr_simple env = none ↔ decode_qr_image env = []) := by
  refine ⟨?_, rfl, rfl, rfl, rfl, rfl, rfl, ?_⟩
  · cases env with
    | unreadable => exact Nat.zero_le 1
    | raises => exact Nat.zero_le 1
    | detected data p =>
      show (if data = "" then ([] : List DecodeResult)
        else [⟨data, "QRCODE", p⟩]).length ≤ 1
      by_cases h : data = ""
      · rw [if_pos h]
        exact Nat.zero_le 1
      · rw [if_neg h]
        exact le_refl 1
  · unfold decode_qr_simple
    cases hd : decode_qr_image env with
    | nil => exact ⟨fun _ => rfl, fun _ => rfl⟩
    | cons r rest =>
      constructor
      · intro hcon
        exact Option.noConfusion hcon
      · intro hcon
        exact List.noConfusion hcon

end LuaQR
